import Mathlib

/-!
# Verification of the `uup` host-availability checker

Shallow embedding of the `uup` program (src/lib.rs, src/ping.rs, src/main.rs)
and proofs about it.

Modelling conventions:
* `anyhow::Error` is opaque to the program; it is modelled as `String`.
* IEEE-754 floating-point numbers appear only as payload data that is
  eventually rendered to text by the external `Display`/`serde_json`
  machinery.  They are modelled by the type `F32`, a float abstracted to the
  decimal text its Rust `Display` implementation produces (e.g. `-1.0f32`
  is carried as `"-1"`).  No arithmetic is ever performed on them by the
  program, only formatting, so this abstraction is exact for the program's
  observable behaviour.  (The renderer's `as_f64`/`as f32` round-trip is the
  identity on values that originate from an `f32`, as all payloads here do.)
* `serde_json::Value` is modelled by the inductive `Json` below; numbers
  keep serde_json's distinction between integers (`u64`) and floats.
* Real time (the ping timeout, the inter-attempt delay, signal arrival) is
  modelled by events: each `tokio::select!` race is decided by an event in
  an input trace, and awaiting the delay leaves an `Effect.delayAwaited`
  observation in the iteration's effect log.
-/

/-- `anyhow::Error`, opaque to this program. -/
abbrev Error := String

/-- An IEEE-754 float abstracted to its Rust `Display` rendering (decimal
text).  The program never computes with these values, only formats them. -/
abbrev F32 := String

/-- serde_json's number type: integers (`u64`) and floats are distinct. -/
inductive JNumber where
  | uint (n : Nat)
  | float (display : F32)
deriving DecidableEq, Repr

/-- Model of `serde_json::Value` (the fragments this program builds). -/
inductive Json where
  | bool (b : Bool)
  | num (n : JNumber)
  | str (s : String)
  | obj (fields : List (String × Json))

/-- `Value::get(key)` on an object: first binding for the key. -/
def Json.get : Json → String → Option Json
  | .obj fields, key => fields.lookup key
  | _, _ => none

/-- `UupCheckResultContext` (src/lib.rs): a JSON payload together with the
backend-supplied human-readable renderer. -/
structure UupCheckResultContext where
  json : Json
  to_human_readable : Json → String

/-- `UupCheckResult` (src/lib.rs). -/
structure UupCheckResult where
  context : UupCheckResultContext
  up : Bool

/-- `UupCheckResultContext::new` (src/lib.rs). -/
def UupCheckResultContext.new (json : Json) (to_human_readable : Json → String) :
    UupCheckResultContext :=
  { json := json, to_human_readable := to_human_readable }

/-- `build_json_object` (src/ping.rs): the ping detail payload.
`duration_secs : F32` abstracts the `f32` argument (see module comment);
`seq_cnt : Nat` carries the `u16` contents (serde_json stores it as `u64`). -/
def build_json_object (up : Bool) (duration_secs : F32) (seq_cnt : Nat)
    (addr : String) : Json :=
  .obj [("up", .bool up),
        ("duration", .num (.float duration_secs)),
        ("unit", .str "s"),
        ("sequence_number", .num (.uint seq_cnt)),
        ("address", .str addr)]

/-- The closure passed to `UupCheckResultContext::new` in
`build_result_context` (src/ping.rs).  The source `unwrap`s each field
lookup; the catch-all arm is unreachable for payloads built by
`build_json_object` (on other inputs the source would panic). -/
def ping_to_human (json_obj : Json) : String :=
  match json_obj.get "up", json_obj.get "duration", json_obj.get "unit",
        json_obj.get "sequence_number", json_obj.get "address" with
  | some (.bool up), some (.num (.float duration)), some (.str unit),
    some (.num (.uint seq_cnt)), some (.str addr) =>
      if up then
        s!"Ping {addr} responded in {duration} {unit} (sequence_number={seq_cnt})"
      else
        s!"Ping {addr} timed out (sequence_number={seq_cnt})"
  | _, _, _, _, _ => ""

/-- `build_result_context` (src/ping.rs). -/
def build_result_context (json_obj : Json) : UupCheckResultContext :=
  UupCheckResultContext.new json_obj ping_to_human

/-- The one warning the ping backend can emit:
`"WARNING: Ignoring port assignment; not supported for ping"`. -/
inductive PingWarning where
  | portIgnored
deriving DecidableEq, Repr

/-- `PingUup::check` (src/ping.rs).

State and effects are made explicit:
* `seq_state : Nat` is the contents of the backend's `u16` sequence counter
  (`seq_cnt` field of `PingUup`); the `u16` increment is modelled with an
  explicit `% 2^16`.
* `ping_result` is the outcome of `pinger.ping(..)`: a transport error, a
  reply after `duration` seconds, or no reply before the timeout.
* The returned triple is (warnings printed, new counter contents, the
  function's `Result`).  The counter is incremented before the ping is
  awaited, so it advances even on a transport error, as in the source. -/
def PingUup.check (seq_state : Nat) (addr : String) (port : Option Nat)
    (ping_result : Except Error (Option F32)) :
    List PingWarning × Nat × Except Error UupCheckResult :=
  let warnings := if port.isSome then [PingWarning.portIgnored] else []
  let seq_cnt := seq_state
  let seq_state := (seq_cnt + 1) % 2 ^ 16
  match ping_result with
  | .error e => (warnings, seq_state, .error e)
  | .ok ping_duration =>
      let up : Bool := ping_duration.isSome
      let duration_secs : F32 :=
        match ping_duration with
        | some duration => duration
        | none => "-1"
      (warnings, seq_state,
        -- the source writes the literal `up : true` here; the computed
        -- `up` flows only into the JSON payload
        .ok { up := true,
              context := build_result_context
                (build_json_object up duration_secs seq_cnt addr) })

/-! ## The scheduler loop (`run_uup_checker`, src/main.rs) -/

/-- `RunMode` (src/main.rs). `Count` holds a `u128`; its value never nears
`2^128` in the loop (it only bounds a counter incremented once per
iteration), so it is carried as `Nat`. -/
inductive RunMode where
  | oneShot
  | forever
  | count (n : Nat)

/-- Outcome of the first `tokio::select!` race of an iteration (probe
future vs. the two signal streams): either the probe resolves first, with
its `Result`, or a termination signal (SIGTERM/SIGINT) wins. -/
inductive CheckEvent where
  | probe (res : Except Error UupCheckResult)
  | signal

/-- Outcome of the second `tokio::select!` race (the `sleep(delay)` future
vs. the signal streams): either the delay elapses or a signal wins. -/
inductive DelayEvent where
  | elapsed
  | signal
deriving DecidableEq, Repr

/-- Observable side effects of one loop iteration, in order:
`printedResult` for the `println!` of a check result, `signalNotice` for an
`eprintln!("Got SIG...; exiting")`, `delayAwaited` for the `sleep(delay)`
future completing (the Delaying phase running to its end). -/
inductive Effect where
  | printedResult
  | signalNotice
  | delayAwaited
deriving DecidableEq, Repr

/-- The loop's mutable locals: `loop_count` (a `u128`, carried as `Nat`;
one increment per continuing iteration never overflows `2^128`, see
`RunMode`) and the accumulator `host_is_up`. -/
structure LoopState where
  loop_count : Nat
  host_is_up : Bool
deriving DecidableEq, Repr

/-- The accumulator update in the probe arm of the first select:
`host_is_up &= result.up` when exclusive, `host_is_up |= result.up`
otherwise. -/
def aggStep (exclusive : Bool) (acc up : Bool) : Bool :=
  if exclusive then acc && up else acc || up

/-- The run-mode part of the termination decision (the `match run_mode`
at the bottom of the loop). -/
def runModeShouldBreak : RunMode → Nat → Bool
  | .oneShot, _ => true
  | .forever, _ => false
  | .count max_count, loop_count => decide (loop_count ≥ max_count)

/-- Effects of the second select: the delay completing, or a signal notice. -/
def delayEffects : DelayEvent → List Effect
  | .elapsed => [.delayAwaited]
  | .signal => [.signalNotice]

/-- Whether the second select sets `should_break`. -/
def delayBreaks : DelayEvent → Bool
  | .elapsed => false
  | .signal => true

/-- The tail of an iteration, after both selects have run: `sb` is the
`should_break` flag they produced, `effs` their effect log.  If
`should_break` is still false the run-mode policy decides; then the loop
either breaks (final state returned, flag `true`) or increments
`loop_count` and continues (flag `false`). -/
def iterEnd (run_mode : RunMode) (s : LoopState) (sb : Bool)
    (effs : List Effect) : LoopState × Bool × List Effect :=
  let should_break := if !sb then runModeShouldBreak run_mode s.loop_count else sb
  if should_break then (s, true, effs)
  else ({ s with loop_count := s.loop_count + 1 }, false, effs)

/-- One full iteration of the `loop` in `run_uup_checker`, driven by the
outcomes of its two select races.  A probe error propagates immediately
(the `result?` in the probe arm returns from the function before the
second select).  In every other case the second select runs — also when a
signal already won the first select. -/
def iterStep (exclusive : Bool) (run_mode : RunMode) (s : LoopState)
    (ce : CheckEvent) (de : DelayEvent) :
    Except Error (LoopState × Bool × List Effect) :=
  match ce with
  | .probe (.error e) => .error e
  | .probe (.ok result) =>
      .ok (iterEnd run_mode
        { s with host_is_up := aggStep exclusive s.host_is_up result.up }
        (delayBreaks de)
        (Effect.printedResult :: delayEffects de))
  | .signal =>
      .ok (iterEnd run_mode s
        true
        (Effect.signalNotice :: delayEffects de))

/-- How a run driven by a finite event trace ends: the loop `break`s and
`Ok(host_is_up)` is returned; a probe error is propagated; or the trace is
exhausted with the loop still running. -/
inductive LoopOutcome where
  | finished (verdict : Bool)
  | failed (e : Error)
  | ongoing (s : LoopState)

/-- The scheduler loop folded over an event trace, one
`(CheckEvent, DelayEvent)` pair per started iteration. -/
def runLoop (exclusive : Bool) (run_mode : RunMode) (s : LoopState) :
    List (CheckEvent × DelayEvent) → LoopOutcome
  | [] => .ongoing s
  | (ce, de) :: rest =>
      match iterStep exclusive run_mode s ce de with
      | .error e => .failed e
      | .ok (s1, true, _) => .finished s1.host_is_up
      | .ok (s1, false, _) => runLoop exclusive run_mode s1 rest

/-- `run_uup_checker` (src/main.rs): `loop_count` starts at `0`,
`host_is_up` starts at `exclusive`. -/
def run_uup_checker (exclusive : Bool) (run_mode : RunMode)
    (events : List (CheckEvent × DelayEvent)) : LoopOutcome :=
  runLoop exclusive run_mode ⟨0, exclusive⟩ events

/-- The `up` booleans a single check event contributes to the accumulator:
one for a successful probe, none for a signal or an error. -/
def checkUps : CheckEvent → List Bool
  | .probe (.ok result) => [result.up]
  | _ => []

/-- Ghost mirror of `runLoop`: the list of `up` booleans actually folded
into `host_is_up` along the run (the erroring iteration folds nothing,
because `result?` propagates before the update; the breaking iteration's
probe result, if any, is folded). -/
def foldedUps (exclusive : Bool) (run_mode : RunMode) (s : LoopState) :
    List (CheckEvent × DelayEvent) → List Bool
  | [] => []
  | (ce, de) :: rest =>
      match iterStep exclusive run_mode s ce de with
      | .error _ => []
      | .ok (_, true, _) => checkUps ce
      | .ok (s1, false, _) => checkUps ce ++ foldedUps exclusive run_mode s1 rest

/-! ## Theorems about the ping backend -/

/-- Claim C2 (code bug): on a timed-out ping (`Ok(None)` from the pinger,
here at counter 0, host 10.0.0.1, no port) `PingUup::check` returns a
normal result whose JSON payload correctly has `up = false` and
`duration = -1`, but whose top-level `up` flag is `true` — the source
writes the literal `up : true` (src/ping.rs:52) instead of the computed
`up`, contradicting the claim that the top-level flag is `false` when no
reply arrived. -/
theorem ping_check_timeout_top_level_up_is_true :
    ((PingUup.check 0 "10.0.0.1" none (Except.ok none)).2.2.map
        (fun r => r.up) = Except.ok true)
  ∧ ((PingUup.check 0 "10.0.0.1" none (Except.ok none)).2.2.map
        (fun r => r.context.json.get "up") = Except.ok (some (Json.bool false)))
  ∧ ((PingUup.check 0 "10.0.0.1" none (Except.ok none)).2.2.map
        (fun r => r.context.json.get "duration")
        = Except.ok (some (Json.num (JNumber.float "-1")))) :=
  ⟨rfl, rfl, rfl⟩

/-- Claim C6: a call with `Some(port)` emits exactly one warning, and
everything else — the new counter and the returned `Result`, hence the
whole code path after the warning — is identical to the call without a
port; in particular, when the pinger itself does not fail, the call with a
port returns a normal (`Ok`) result. -/
theorem ping_check_port_warned_once_then_ignored (seq_state : Nat)
    (addr : String) (p : Nat) (ping_result : Except Error (Option F32)) :
    ((PingUup.check seq_state addr (some p) ping_result).1
        = [PingWarning.portIgnored])
  ∧ ((PingUup.check seq_state addr (some p) ping_result).2
        = (PingUup.check seq_state addr none ping_result).2)
  ∧ (∀ o : Option F32, ∃ r,
        (PingUup.check seq_state addr (some p) (Except.ok o)).2.2
          = Except.ok r) := by
  refine ⟨?_, ?_, ?_⟩
  · cases ping_result <;> rfl
  · cases ping_result <;> rfl
  · intro o
    exact ⟨_, rfl⟩

/-- Claim C7: the human-readable rendering installed by
`build_result_context` produces exactly the two strings the claim states,
on the payloads `up=true, duration=0.0123, unit="s", sequence_number=7,
address="10.0.0.1"` and `up=false, sequence_number=8, address="10.0.0.1"`. -/
theorem ping_render_exact_strings :
    ((build_result_context
        (build_json_object true "0.0123" 7 "10.0.0.1")).to_human_readable
      (build_result_context
        (build_json_object true "0.0123" 7 "10.0.0.1")).json
      = "Ping 10.0.0.1 responded in 0.0123 s (sequence_number=7)")
  ∧ ((build_result_context
        (build_json_object false "-1" 8 "10.0.0.1")).to_human_readable
      (build_result_context
        (build_json_object false "-1" 8 "10.0.0.1")).json
      = "Ping 10.0.0.1 timed out (sequence_number=8)") := by
  exact ⟨rfl, rfl⟩

/-- Claim C8: the sequence counter is 16-bit and its per-check increment
wraps: in general the stored counter becomes `(old + 1) % 2^16`; a check
performed at counter 65535 stores 0 back and still reports sequence number
65535 in its payload, returning normally whenever the pinger itself
returns normally. -/
theorem ping_seq_counter_wraps (seq_state : Nat) (addr : String)
    (port : Option Nat) (ping_result : Except Error (Option F32)) :
    ((PingUup.check seq_state addr port ping_result).2.1
        = (seq_state + 1) % 2 ^ 16)
  ∧ ((PingUup.check 65535 addr port ping_result).2.1 = 0)
  ∧ (∀ o : Option F32,
        (PingUup.check 65535 addr port (Except.ok o)).2.2.map
          (fun r => r.context.json.get "sequence_number")
        = Except.ok (some (Json.num (JNumber.uint 65535)))) := by
  refine ⟨?_, ?_, ?_⟩
  · cases ping_result <;> rfl
  · cases ping_result <;> rfl
  · intro o
    cases o <;> rfl

/-- Claim C9: the port argument influences only the warning: two calls to
`PingUup::check` differing only in the port, from the same counter state
and with the same ping outcome, return identical counter updates and
identical results (up flag, payload and rendering included). -/
theorem ping_check_result_independent_of_port (seq_state : Nat)
    (addr : String) (p1 p2 : Option Nat)
    (ping_result : Except Error (Option F32)) :
    (PingUup.check seq_state addr p1 ping_result).2
      = (PingUup.check seq_state addr p2 ping_result).2 := by
  cases ping_result <;> rfl

/-! ## Helper lemmas about the scheduler -/

theorem iterEnd_fst_host (rm : RunMode) (s : LoopState) (sb : Bool)
    (effs : List Effect) : (iterEnd rm s sb effs).1.host_is_up = s.host_is_up := by
  simp only [iterEnd]
  split <;> split <;> rfl

theorem iterStep_signal_eq (exclusive : Bool) (rm : RunMode) (s : LoopState)
    (de : DelayEvent) :
    iterStep exclusive rm s CheckEvent.signal de
      = Except.ok (s, true, Effect.signalNotice :: delayEffects de) := rfl

theorem iterStep_ok_host (exclusive : Bool) (rm : RunMode) (s : LoopState)
    (ce : CheckEvent) (de : DelayEvent) (s1 : LoopState) (b : Bool)
    (effs : List Effect)
    (h : iterStep exclusive rm s ce de = .ok (s1, b, effs)) :
    s1.host_is_up = List.foldl (aggStep exclusive) s.host_is_up (checkUps ce) := by
  cases ce with
  | probe res =>
      cases res with
      | error e => simp [iterStep] at h
      | ok r =>
          simp only [iterStep, Except.ok.injEq] at h
          have h1 := congrArg (fun p : LoopState × Bool × List Effect =>
            p.1.host_is_up) h
          simp only [iterEnd_fst_host] at h1
          simp [checkUps, ← h1]
  | signal =>
      rw [iterStep_signal_eq] at h
      simp only [Except.ok.injEq, Prod.mk.injEq] at h
      simp [checkUps, ← h.1]

theorem foldl_aggStep_true (l : List Bool) (b : Bool) :
    List.foldl (aggStep true) b l = (b && l.all id) := by
  induction l generalizing b with
  | nil => simp
  | cons x xs ih => simp [aggStep, ih, Bool.and_assoc]

theorem foldl_aggStep_false (l : List Bool) (b : Bool) :
    List.foldl (aggStep false) b l = (b || l.any id) := by
  induction l generalizing b with
  | nil => simp
  | cons x xs ih => simp [aggStep, ih, Bool.or_assoc]

theorem runLoop_finished_agg (exclusive : Bool) (rm : RunMode) :
    ∀ (t : List (CheckEvent × DelayEvent)) (s : LoopState) (v : Bool),
      runLoop exclusive rm s t = .finished v →
      v = List.foldl (aggStep exclusive) s.host_is_up
            (foldedUps exclusive rm s t) := by
  intro t
  induction t with
  | nil =>
      intro s v h
      simp [runLoop] at h
  | cons ev rest ih =>
      obtain ⟨ce, de⟩ := ev
      intro s v h
      simp only [runLoop] at h
      simp only [foldedUps]
      cases hstep : iterStep exclusive rm s ce de with
      | error e => rw [hstep] at h; simp at h
      | ok out =>
          obtain ⟨s1, b, effs⟩ := out
          rw [hstep] at h
          have hhost := iterStep_ok_host exclusive rm s ce de s1 b effs hstep
          cases b with
          | true =>
              simp only [LoopOutcome.finished.injEq] at h
              rw [← h, hhost]
          | false =>
              have hv := ih s1 v h
              rw [hv, List.foldl_append, ← hhost]

/-! ## Theorems about the scheduler loop -/

/-- Claim C1: whenever `run_uup_checker` returns a verdict, that verdict is
the AND (when `exclusive`) or the OR (when not) of the `up` booleans it
folded; since `host_is_up` initializes to `exclusive`, the empty fold
(zero completed check iterations, e.g. an immediate signal) yields `true`
under `exclusive` and `false` otherwise — the `if exclusive` below reduces
to `List.all` of the empty list (`true`) and `List.any` of it (`false`). -/
theorem run_uup_checker_verdict_is_and_or (exclusive : Bool) (rm : RunMode)
    (t : List (CheckEvent × DelayEvent)) (v : Bool)
    (h : run_uup_checker exclusive rm t = .finished v) :
    v = if exclusive
        then (foldedUps exclusive rm ⟨0, exclusive⟩ t).all id
        else (foldedUps exclusive rm ⟨0, exclusive⟩ t).any id := by
  have hv := runLoop_finished_agg exclusive rm t ⟨0, exclusive⟩ v h
  cases exclusive with
  | true => simpa [foldl_aggStep_true] using hv
  | false => simpa [foldl_aggStep_false] using hv

/-- A concrete successful check result, used to build witness traces. -/
def sampleResult : UupCheckResult :=
  { up := true,
    context := build_result_context
      (build_json_object true "0.001" 0 "10.0.0.1") }

/-- A one-iteration witness trace: the probe succeeds, the delay elapses. -/
def sampleTrace : List (CheckEvent × DelayEvent) :=
  [(CheckEvent.probe (Except.ok sampleResult), DelayEvent.elapsed)]

/-- Witness for C1: a concrete inclusive one-shot run that finishes with
verdict `true`, which indeed equals the OR of the single folded boolean. -/
theorem run_uup_checker_verdict_is_and_or_witness :
    true = if false
           then (foldedUps false RunMode.oneShot ⟨0, false⟩ sampleTrace).all id
           else (foldedUps false RunMode.oneShot ⟨0, false⟩ sampleTrace).any id :=
  run_uup_checker_verdict_is_and_or false RunMode.oneShot sampleTrace true rfl

/-- Claim C10: the accumulator is monotone — under `exclusive` it is
non-increasing (from any point where `host_is_up` is `false`, every later
state and any final verdict is `false`), and under inclusive mode it is
non-decreasing (from any point where it is `true`, every later state and
any final verdict is `true`). -/
theorem accumulated_verdict_monotone :
    (∀ (rm : RunMode) (c : Nat) (t : List (CheckEvent × DelayEvent)) (v : Bool),
        runLoop true rm ⟨c, false⟩ t = .finished v → v = false)
  ∧ (∀ (rm : RunMode) (c : Nat) (t : List (CheckEvent × DelayEvent))
        (s' : LoopState),
        runLoop true rm ⟨c, false⟩ t = .ongoing s' → s'.host_is_up = false)
  ∧ (∀ (rm : RunMode) (c : Nat) (t : List (CheckEvent × DelayEvent)) (v : Bool),
        runLoop false rm ⟨c, true⟩ t = .finished v → v = true)
  ∧ (∀ (rm : RunMode) (c : Nat) (t : List (CheckEvent × DelayEvent))
        (s' : LoopState),
        runLoop false rm ⟨c, true⟩ t = .ongoing s' → s'.host_is_up = true) := by
  have key : ∀ (ex : Bool) (w : Bool) (rm : RunMode)
      (t : List (CheckEvent × DelayEvent)) (s : LoopState),
      (∀ u : Bool, aggStep ex w u = w) → s.host_is_up = w →
      (∀ v, runLoop ex rm s t = .finished v → v = w)
      ∧ (∀ s', runLoop ex rm s t = .ongoing s' → s'.host_is_up = w) := by
    intro ex w rm t
    induction t with
    | nil =>
        intro s habs hs
        constructor
        · intro v h; simp [runLoop] at h
        · intro s' h
          simp only [runLoop, LoopOutcome.ongoing.injEq] at h
          rw [← h, hs]
    | cons ev rest ih =>
        obtain ⟨ce, de⟩ := ev
        intro s habs hs
        have hstay : ∀ s1 b effs, iterStep ex rm s ce de = .ok (s1, b, effs) →
            s1.host_is_up = w := by
          intro s1 b effs hstep
          have := iterStep_ok_host ex rm s ce de s1 b effs hstep
          rw [this, hs]
          cases hce : checkUps ce with
          | nil => rfl
          | cons u us =>
              cases ce with
              | signal => simp [checkUps] at hce
              | probe res =>
                  cases res with
                  | error e => simp [checkUps] at hce
                  | ok r =>
                      simp only [checkUps, List.cons.injEq] at hce
                      obtain ⟨hu, hus⟩ := hce
                      subst hu; subst hus
                      simp [habs r.up]
        constructor
        · intro v h
          simp only [runLoop] at h
          cases hstep : iterStep ex rm s ce de with
          | error e => rw [hstep] at h; simp at h
          | ok out =>
              obtain ⟨s1, b, effs⟩ := out
              rw [hstep] at h
              cases b with
              | true =>
                  simp only [LoopOutcome.finished.injEq] at h
                  rw [← h]; exact hstay s1 true effs hstep
              | false =>
                  exact (ih s1 habs (hstay s1 false effs hstep)).1 v h
        · intro s' h
          simp only [runLoop] at h
          cases hstep : iterStep ex rm s ce de with
          | error e => rw [hstep] at h; simp at h
          | ok out =>
              obtain ⟨s1, b, effs⟩ := out
              rw [hstep] at h
              cases b with
              | true => simp at h
              | false =>
                  exact (ih s1 habs (hstay s1 false effs hstep)).2 s' h
  refine ⟨?_, ?_, ?_, ?_⟩
  · intro rm c t v h
    exact (key true false rm t ⟨c, false⟩ (by intro u; simp [aggStep]) rfl).1 v h
  · intro rm c t s' h
    exact (key true false rm t ⟨c, false⟩ (by intro u; simp [aggStep]) rfl).2 s' h
  · intro rm c t v h
    exact (key false true rm t ⟨c, true⟩ (by intro u; simp [aggStep]) rfl).1 v h
  · intro rm c t s' h
    exact (key false true rm t ⟨c, true⟩ (by intro u; simp [aggStep]) rfl).2 s' h

/-- Witness for C10: a concrete exclusive run that already accumulated
`false` finishes with verdict `false` (one-shot, one successful probe). -/
theorem accumulated_verdict_monotone_witness :
    (false : Bool) = false :=
  accumulated_verdict_monotone.1 RunMode.oneShot 0 sampleTrace false rfl

/-- An uninterrupted, error-free trace: every iteration's probe succeeds
and every delay elapses without a signal. -/
def goodTrace (results : List UupCheckResult) :
    List (CheckEvent × DelayEvent) :=
  results.map (fun r => (CheckEvent.probe (Except.ok r), DelayEvent.elapsed))

theorem runLoop_count_ongoing (exclusive : Bool) (n : Nat) :
    ∀ (results : List UupCheckResult) (c : Nat) (b : Bool),
      c + results.length ≤ n →
      ∃ s', runLoop exclusive (.count n) ⟨c, b⟩ (goodTrace results)
              = .ongoing s' := by
  intro results
  induction results with
  | nil =>
      intro c b _
      exact ⟨⟨c, b⟩, rfl⟩
  | cons r rs ih =>
      intro c b hlen
      have hc : (decide (c ≥ n)) = false := by
        simp only [decide_eq_false_iff_not, not_le]
        simp only [List.length_cons] at hlen
        omega
      simp only [goodTrace, List.map_cons, runLoop, iterStep, iterEnd,
        delayBreaks, delayEffects, runModeShouldBreak, Bool.not_false,
        if_true, hc, if_false, Bool.false_eq_true]
      exact ih (c + 1) (aggStep exclusive b r.up) (by
        simp only [List.length_cons] at hlen; omega)

theorem runLoop_count_finishes (exclusive : Bool) (n : Nat) :
    ∀ (results : List UupCheckResult), results ≠ [] →
      ∀ (c : Nat) (b : Bool), c + results.length = n + 1 →
      ∃ v, runLoop exclusive (.count n) ⟨c, b⟩ (goodTrace results)
             = .finished v := by
  intro results
  induction results with
  | nil => intro hne; exact absurd rfl hne
  | cons r rs ih =>
      intro _ c b hlen
      simp only [List.length_cons] at hlen
      cases hrs : rs with
      | nil =>
          have hc : c = n := by rw [hrs] at hlen; simpa using hlen
          subst hc
          have hbrk : (decide (c ≥ c)) = true := by simp
          simp only [goodTrace, List.map_cons, List.map_nil, runLoop,
            iterStep, iterEnd, delayBreaks, delayEffects,
            runModeShouldBreak, Bool.not_false, if_true, hbrk]
          exact ⟨_, rfl⟩
      | cons r2 rs2 =>
          have hlt : c < n := by
            rw [hrs] at hlen; simp only [List.length_cons] at hlen; omega
          have hc : (decide (c ≥ n)) = false := by
            simp only [decide_eq_false_iff_not, not_le]; omega
          rw [← hrs]
          simp only [goodTrace, List.map_cons, runLoop, iterStep, iterEnd,
            delayBreaks, delayEffects, runModeShouldBreak, Bool.not_false,
            if_true, hc, if_false, Bool.false_eq_true]
          exact ih (by rw [hrs]; simp) (c + 1) (aggStep exclusive b r.up)
            (by omega)

/-- Claim C3: with `RunMode::Count(n)`, a run that is never interrupted by
a signal and whose probe never errors completes exactly `n + 1` Checking
phases: a trace of `n + 1` successful iterations makes the run-mode policy
terminate the loop (a verdict is returned), while any such trace of length
at most `n` leaves the loop still running. -/
theorem count_mode_runs_n_plus_one_iterations (n : Nat) (exclusive : Bool)
    (results : List UupCheckResult) :
    (results.length = n + 1 →
      ∃ v, run_uup_checker exclusive (.count n) (goodTrace results)
             = .finished v)
  ∧ (results.length ≤ n →
      ∃ s', run_uup_checker exclusive (.count n) (goodTrace results)
              = .ongoing s') := by
  constructor
  · intro hlen
    have hne : results ≠ [] := by
      intro hnil; rw [hnil] at hlen; simp at hlen
    exact runLoop_count_finishes exclusive n results hne 0 exclusive
      (by simpa using hlen)
  · intro hlen
    exact runLoop_count_ongoing exclusive n results 0 exclusive
      (by simpa using hlen)

/-- Witness for C3: `Count(0)` finishes on a trace of one successful
iteration and is still running on the empty trace. -/
theorem count_mode_runs_n_plus_one_iterations_witness :
    (∃ v, run_uup_checker false (.count 0) (goodTrace [sampleResult])
            = .finished v)
  ∧ (∃ s', run_uup_checker false (.count 0) (goodTrace [])
             = .ongoing s') :=
  ⟨(count_mode_runs_n_plus_one_iterations 0 false [sampleResult]).1 rfl,
   (count_mode_runs_n_plus_one_iterations 0 false []).2 (by decide)⟩

/-- Claim C4 counterexample: in the concrete iteration where a signal wins
the Checking-phase race and no further signal arrives, the effect log is
`[signalNotice, delayAwaited]`: the `sleep(delay)` future is awaited to
completion after the signal (the Delaying phase runs, it is not skipped),
and only then does the iteration report termination.  This refutes the
claim that the scheduler "skips the Delaying phase entirely" and that "no
delay is awaited between the signal's arrival and loop termination". -/
theorem checking_signal_still_awaits_delay :
    iterStep false RunMode.forever ⟨0, false⟩ CheckEvent.signal
        DelayEvent.elapsed
      = Except.ok (⟨0, false⟩, true,
          [Effect.signalNotice, Effect.delayAwaited]) := rfl

/-- Claim C4 (amended): when a termination signal wins the race during the
Checking phase, the scheduler records pending termination and folds no
probe result (the loop state is returned unchanged), but it does not skip
the Delaying phase: the second select still runs — awaiting either the
delay or a further signal, whose effects appear after the signal notice —
and only after that phase does the iteration terminate the loop,
unconditionally and regardless of run mode. -/
theorem checking_signal_terminates_after_delay_phase (exclusive : Bool)
    (rm : RunMode) (s : LoopState) (de : DelayEvent) :
    iterStep exclusive rm s CheckEvent.signal de
      = Except.ok (s, true, Effect.signalNotice :: delayEffects de) := rfl

/-- Claim C5: a probe-backend error is fatal — `runLoop` on a trace whose
next iteration's probe errors yields `failed e` whatever follows (the
error is propagated, not retried, not swallowed, not turned into a down
verdict, and the remaining trace is never consumed) — whereas a signal in
the Checking phase ends the run through the normal path with the
accumulated verdict `host_is_up`. -/
theorem probe_error_fatal_signal_clean (exclusive : Bool) (rm : RunMode)
    (s : LoopState) (e : Error) (de : DelayEvent)
    (rest : List (CheckEvent × DelayEvent)) :
    (runLoop exclusive rm s
        ((CheckEvent.probe (Except.error e), de) :: rest)
      = LoopOutcome.failed e)
  ∧ (runLoop exclusive rm s ((CheckEvent.signal, de) :: rest)
      = LoopOutcome.finished s.host_is_up) :=
  ⟨rfl, rfl⟩
